import Mathlib

/-!
Verification of the metadata persistence layer of the portfolio server
(`src/server/index.js`) against its natural-language specification.

The collection is a JSON array of photo records; every operation is a pure
function from the current collection (plus request inputs) to the next
collection.  Machine numbers are embedded as `Nat`/`Int`; the JS floating
aspect ratio `w / h` is embedded as a rational, which is exact on the
integer dimensions the server manipulates.
-/

namespace Portfolio

/-- Orientation tag (`'land' | 'port' | 'sq'` in the source). -/
inductive Orient where
  | land
  | port
  | sq
deriving DecidableEq, Repr

/-- One photo record, after the object literal built in
`POST /api/admin/photos/register` (index.js lines 160-170). -/
structure Photo where
  id : String
  cloudinaryId : String
  name : String
  w : Nat
  h : Nat
  ratio : ℚ
  orient : Orient
  order : Int
  published : Bool
  createdAt : String
deriving DecidableEq, Repr

/-- The collection (`db`): the JSON array persisted as a whole. -/
abbrev DB := List Photo

/-- The id column of the collection. -/
def ids (db : DB) : List String := db.map Photo.id

/-! ## Geometry classifier (index.js lines 156-157)

`const ratio = finalW && finalH ? finalW / finalH : 1;`
`const orient = ratio > 1.15 ? 'land' : ratio < 0.87 ? 'port' : 'sq';` -/

/-- Aspect ratio: `w / h` when both dimensions are nonzero, else the neutral
default `1`. -/
def ratioOf (w h : Nat) : ℚ :=
  if 0 < w ∧ 0 < h then (w : ℚ) / (h : ℚ) else 1

/-- Orientation from the aspect ratio, with the fixed thresholds of the
source. -/
def orientOf (r : ℚ) : Orient :=
  if r > 1.15 then .land else if r < 0.87 then .port else .sq

/-- The geometry classifier as a single pure function. -/
def classify (w h : Nat) : ℚ × Orient :=
  (ratioOf w h, orientOf (ratioOf w h))

/-! ## Registration (index.js lines 139-191)

`POST /api/admin/photos/register` computes final dimensions (falling back to
an external lookup, whose failure is swallowed), derives ratio/orientation,
and appends a record with `order = db.length`, `published = false`. -/

/-- Final dimensions: supplied dimensions are used when both are nonzero
(`parseInt(w) || 0`, absent ↦ 0); otherwise the external dimension lookup
result replaces them (`info.width || 0`), and a failed lookup
(`lookup = none`) leaves the supplied values in place. -/
def finalDims (w h : Option Nat) (lookup : Option (Nat × Nat)) : Nat × Nat :=
  let w0 := w.getD 0
  let h0 := h.getD 0
  if w0 = 0 ∨ h0 = 0 then
    match lookup with
    | some wh => wh
    | none => (w0, h0)
  else (w0, h0)

/-- `s.split('/').pop()`: the final slash-separated segment (empty when the
string ends in a slash). -/
def lastSeg (s : String) : String :=
  ((s.splitOn "/").getLast?).getD ""

/-- `path.basename(p)` of node for ordinary file names: trailing slashes are
dropped, then the part after the last remaining slash is kept. -/
def baseNameOf (p : String) : String :=
  let cs := (p.toList.reverse.dropWhile (fun c => c = '/')).reverse
  if cs.isEmpty then (if p.toList.any (fun c => c = '/') then "/" else "")
  else String.mk ((cs.reverse.takeWhile (fun c => c ≠ '/')).reverse)

/-- `path.extname(p)` for ordinary file names: the suffix of the base name
from its last dot, empty when the only dot is the leading character. -/
def extNameOf (p : String) : String :=
  match (baseNameOf p).toList with
  | [] => ""
  | _ :: rest =>
    let tailChars := rest.reverse.takeWhile (fun c => c ≠ '.')
    if tailChars.length = rest.length then ""
    else String.mk ('.' :: tailChars.reverse)

/-- `path.basename(n, path.extname(n))`: the file-name stem. -/
def stemOf (n : String) : String :=
  let b := baseNameOf n
  let e := extNameOf n
  if e.length = 0 then b else b.dropRight e.length

/-- The registered display name: the stem of the original name when one is
given and non-empty (JS truthiness), else the last segment of the blob
reference. -/
def photoName (cloudinaryId : String) (originalName : Option String) : String :=
  match originalName with
  | some n => if n.isEmpty then lastSeg cloudinaryId else stemOf n
  | none => lastSeg cloudinaryId

/-- The register mutation: build the record and append it to the collection.
`newId` stands for the generated `crypto.randomUUID()`, `now` for the
`createdAt` timestamp, `lookup` for the outcome of the external
`cloudinary.api.resource` dimension lookup (`none` = the lookup failed). -/
def registerPhoto (db : DB) (newId cld : String) (originalName : Option String)
    (w h : Option Nat) (lookup : Option (Nat × Nat)) (now : String) :
    DB × Photo :=
  let fd := finalDims w h lookup
  let r := ratioOf fd.1 fd.2
  let photo : Photo :=
    { id := newId
      cloudinaryId := cld
      name := photoName cld originalName
      w := fd.1
      h := fd.2
      ratio := r
      orient := orientOf r
      order := (db.length : Int)
      published := false
      createdAt := now }
  (db ++ [photo], photo)

/-! ## Shared mutation helpers

`db.find(p => p.id === id)` followed by an in-place field assignment touches
only the first record whose id matches; `updateFirst` is that pattern. -/

/-- Replace the first record whose id is `i` by its image under `f`. -/
def updateFirst (db : DB) (i : String) (f : Photo → Photo) : DB :=
  match db with
  | [] => []
  | p :: rest => if p.id = i then f p :: rest else p :: updateFirst rest i f

/-- `ids.forEach((id, i) => ...)` applying the indexed update `u i` to the
first record matching each listed id, starting at index `n`. -/
def applyByIds (u : Nat → Photo → Photo) : Nat → List String → DB → DB
  | _, [], db => db
  | n, a :: rest, db => applyByIds u (n + 1) rest (updateFirst db a (u n))

/-! ## Partial update (index.js lines 219-229, `PUT /api/admin/photos/:id`) -/

/-- The request body of a partial update: `name` and `order` fields are
applied only when present (`!== undefined`). -/
structure Patch where
  name : Option String := none
  order : Option Int := none
deriving DecidableEq, Repr

/-- Apply the fields present in the patch to one record. -/
def applyPatch (q : Patch) (p : Photo) : Photo :=
  { p with name := q.name.getD p.name, order := q.order.getD p.order }

/-- The partial-update mutation: `404` (modelled as `.error ()`) when no
record has the requested id, otherwise the first matching record is patched
and the collection re-saved. -/
def updateOp (db : DB) (i : String) (q : Patch) : Except Unit DB :=
  if i ∈ ids db then .ok (updateFirst db i (applyPatch q)) else .error ()

/-! ## Deletion (index.js lines 232-243, `DELETE /api/admin/photos/:id`) -/

/-- `db.forEach((p, i) => p.order = i)` starting at index `n`. -/
def renumberFrom : Nat → DB → DB
  | _, [] => []
  | n, p :: rest => { p with order := (n : Int) } :: renumberFrom (n + 1) rest

/-- The delete mutation: `404` when the id is absent; otherwise the blob
deletion is attempted (`destroyOk` records whether it succeeded — the source
swallows a failure with `try/catch`, so the result does not depend on it),
all records with the id are removed, and the survivors are renumbered. -/
def deleteOp (db : DB) (i : String) (destroyOk : Bool) : Except Unit DB :=
  if i ∈ ids db then
    .ok (renumberFrom 0 (db.filter (fun p => p.id ≠ i)))
  else .error ()

/-! ## Bulk publish (index.js lines 246-259, `POST /api/admin/publish`) -/

/-- Mark one record published with the given order index. -/
def setPublished (n : Nat) (p : Photo) : Photo :=
  { p with published := true, order := (n : Int) }

/-- `db.forEach((p, i) => { p.published = true; p.order = i })` from `n`. -/
def publishAllFrom : Nat → DB → DB
  | _, [] => []
  | n, p :: rest => setPublished n p :: publishAllFrom (n + 1) rest

/-- The bulk publish mutation: every record is first unpublished; with an id
list (`Array.isArray(ids)`), each listed id found in the collection is
published with `order` = its index in the list (absent ids are skipped);
with no list, the whole collection is published and renumbered by position. -/
def publishOp (db : DB) (idList : Option (List String)) : DB :=
  let cleared := db.map (fun p => { p with published := false })
  match idList with
  | some l => applyByIds setPublished 0 l cleared
  | none => publishAllFrom 0 cleared

/-! ## Full reorder (index.js lines 262-272, `POST /api/admin/reorder`) -/

/-- Overwrite one record's order index. -/
def setOrder (n : Nat) (p : Photo) : Photo :=
  { p with order := (n : Int) }

/-- `db.sort((a, b) => a.order - b.order)`: a stable ascending sort on the
`order` field (`Array.prototype.sort` is stable, as is `List.mergeSort`). -/
def sortByOrder (db : DB) : DB :=
  db.mergeSort (fun a b => a.order ≤ b.order)

/-- The full-reorder mutation: `400` (modelled as `.error ()`) when the body
carries no list; otherwise each listed id found in the collection receives
`order` = its index in the list and the collection is stably sorted by
`order`. -/
def reorderOp (db : DB) (idList : Option (List String)) : Except Unit DB :=
  match idList with
  | none => .error ()
  | some l => .ok (sortByOrder (applyByIds setOrder 0 l db))

/-- `DELETE /api/admin/photos` (index.js lines 275-283): replace the
collection with the empty one. -/
def clearOp (_db : DB) : DB := []

/-! ## Persistence (index.js lines 36-63, `readDB` / `writeDB`)

The snapshot serializer is the platform's `JSON.stringify(-, null, 2)` /
`JSON.parse` pair, which is not code of this repository;
it is abstracted, as the spec's Durable Backing Adapter interface does with
snapshots, as a codec over an opaque byte type with the platform guarantee
that parsing a just-serialized snapshot returns the snapshot. -/

/-- A snapshot codec over byte type `β`: deterministic serialization and a
parser that inverts it. -/
structure SnapshotCodec (β : Type) where
  stringify : DB → β
  parse : β → Option DB
  roundTrip : ∀ db : DB, parse (stringify db) = some db

/-- The two persisted copies: the local cache file (absent, or some bytes —
possibly unparseable) and the remote backing object. -/
structure Store (β : Type) where
  localFile : Option β
  remote : Option β
deriving DecidableEq, Repr

/-- `writeDB`: serialize once, write the same bytes to the local file and to
the remote object; either write may fail (`localOk` / `remoteOk`; the source
swallows both failures), leaving that copy unchanged.  Returns the new store
and the serialized bytes. -/
def writeDB (c : SnapshotCodec β) (data : DB) (s : Store β)
    (localOk remoteOk : Bool) : Store β × β :=
  let json := c.stringify data
  ({ localFile := if localOk then some json else s.localFile
     remote := if remoteOk then some json else s.remote }, json)

/-- `readDB`: return the local file's snapshot when it exists and parses;
otherwise fall back to the remote object, and when that fetch delivers a
parseable snapshot, return it after re-serializing it into the local cache
(the inner cache write may itself fail, `cacheWriteOk`, and is swallowed);
when both sources fail, return the empty collection. -/
def readDB (c : SnapshotCodec β) (s : Store β) (cacheWriteOk : Bool) :
    DB × Store β :=
  match s.localFile.bind c.parse with
  | some db => (db, s)
  | none =>
    match s.remote.bind c.parse with
    | some data =>
      (data, if cacheWriteOk
             then { s with localFile := some (c.stringify data) }
             else s)
    | none => ([], s)

/-! ## Reachable collections

One constructor per HTTP mutation of the source.  The register constructor
carries the freshness of the generated UUID. -/

/-- Collections reachable from the empty collection through the server's
mutations. -/
inductive Reachable : DB → Prop where
  | init : Reachable []
  | register (db : DB) (newId cld : String) (originalName : Option String)
      (w h : Option Nat) (lookup : Option (Nat × Nat)) (now : String) :
      Reachable db → newId ∉ ids db →
      Reachable (registerPhoto db newId cld originalName w h lookup now).1
  | put (db : DB) (i : String) (q : Patch) (db' : DB) :
      Reachable db → updateOp db i q = .ok db' → Reachable db'
  | del (db : DB) (i : String) (destroyOk : Bool) (db' : DB) :
      Reachable db → deleteOp db i destroyOk = .ok db' → Reachable db'
  | publish (db : DB) (idList : Option (List String)) :
      Reachable db → Reachable (publishOp db idList)
  | reorder (db : DB) (l : List String) (db' : DB) :
      Reachable db → reorderOp db (some l) = .ok db' → Reachable db'
  | clear (db : DB) : Reachable db → Reachable (clearOp db)

/-! ## Density of order values -/

/-- The order values of the collection are exactly `0, …, n-1` (as a
multiset). -/
def OrdersDense (db : DB) : Prop :=
  (db.map Photo.order).Perm ((List.range db.length).map Int.ofNat)

/-- The order values of the published subset are exactly `0, …, k-1`. -/
def PublishedDense (db : DB) : Prop :=
  ((db.filter (fun p => p.published)).map Photo.order).Perm
    ((List.range (db.filter (fun p => p.published)).length).map Int.ofNat)

instance (db : DB) : Decidable (OrdersDense db) :=
  inferInstanceAs (Decidable (List.Perm _ _))

instance (db : DB) : Decidable (PublishedDense db) :=
  inferInstanceAs (Decidable (List.Perm _ _))

/-! ## Helper lemmas -/

theorem ids_map_of_preserve {g : Photo → Photo} (hg : ∀ p, (g p).id = p.id)
    (db : DB) : ids (db.map g) = ids db := by
  unfold ids
  rw [List.map_map]
  exact List.map_congr_left (fun p _ => hg p)

theorem updateFirst_eq_map {f : Photo → Photo} {i : String} :
    ∀ {db : DB}, (ids db).Nodup →
      updateFirst db i f = db.map (fun p => if p.id = i then f p else p)
  | [], _ => rfl
  | p :: rest, hnd => by
    have hnd' : (ids rest).Nodup := (List.nodup_cons.mp hnd).2
    have hpm : p.id ∉ ids rest := (List.nodup_cons.mp hnd).1
    unfold updateFirst
    by_cases hpi : p.id = i
    · rw [if_pos hpi, List.map_cons, if_pos hpi]
      congr 1
      have : ∀ q ∈ rest, (if q.id = i then f q else q) = q := by
        intro q hq
        rw [if_neg]
        intro hqi
        exact hpm (hpi ▸ hqi ▸ List.mem_map_of_mem Photo.id hq)
      rw [List.map_congr_left this, List.map_id']
    · rw [if_neg hpi, List.map_cons, if_neg hpi, updateFirst_eq_map hnd']

theorem updateFirst_ids {f : Photo → Photo} (hf : ∀ p, (f p).id = p.id)
    (i : String) : ∀ db : DB, ids (updateFirst db i f) = ids db
  | [] => rfl
  | p :: rest => by
    unfold updateFirst
    by_cases hpi : p.id = i
    · rw [if_pos hpi]
      show (f p).id :: ids rest = p.id :: ids rest
      rw [hf]
    · rw [if_neg hpi]
      show p.id :: ids (updateFirst rest i f) = p.id :: ids rest
      rw [updateFirst_ids hf i rest]

/-- The indexed-update loop touches exactly the listed records, giving each
the index of its id in the list. -/
theorem applyByIds_eq_map (u : Nat → Photo → Photo)
    (hu : ∀ n p, (u n p).id = p.id) :
    ∀ (l : List String) (n : Nat) (db : DB), (ids db).Nodup → l.Nodup →
      applyByIds u n l db =
        db.map (fun p => if p.id ∈ l then u (n + l.indexOf p.id) p else p)
  | [], n, db, _, _ => by
    unfold applyByIds
    have : ∀ p ∈ db,
        (if p.id ∈ ([] : List String) then u (n + List.indexOf p.id []) p
         else p) = p := by
      intro p _
      rw [if_neg (List.not_mem_nil p.id)]
    rw [List.map_congr_left this, List.map_id']
  | a :: rest, n, db, hdb, hl => by
    have hna : a ∉ rest := (List.nodup_cons.mp hl).1
    have hrest : rest.Nodup := (List.nodup_cons.mp hl).2
    unfold applyByIds
    rw [updateFirst_eq_map hdb]
    have hids : ids (db.map (fun p => if p.id = a then u n p else p)) =
        ids db := by
      apply ids_map_of_preserve
      intro p
      by_cases hpa : p.id = a
      · rw [if_pos hpa, hu]
      · rw [if_neg hpa]
    rw [applyByIds_eq_map u hu rest (n + 1) _ (hids ▸ hdb) hrest, List.map_map]
    apply List.map_congr_left
    intro p _
    by_cases hpa : p.id = a
    · rw [Function.comp_apply, if_pos hpa, hu n p, hpa, if_neg hna,
        if_pos (List.mem_cons_self a rest), List.indexOf_cons_self,
        Nat.add_zero]
    · simp only [Function.comp_apply, if_neg hpa]
      by_cases hpr : p.id ∈ rest
      · rw [if_pos hpr, if_pos (List.mem_cons_of_mem a hpr),
          List.indexOf_cons_ne rest (fun h => hpa h.symm)]
        congr 1
        omega
      · rw [if_neg hpr, if_neg]
        intro hmem
        rcases List.mem_cons.mp hmem with h | h
        · exact hpa h
        · exact hpr h

/-- Mapping each element of a duplicate-free list to its index enumerates
`0, …, n-1` in order. -/
theorem map_indexOf_self :
    ∀ l : List String, l.Nodup →
      l.map (fun s => l.indexOf s) = List.range l.length
  | [], _ => rfl
  | a :: rest, hl => by
    have hna : a ∉ rest := (List.nodup_cons.mp hl).1
    have hrest : rest.Nodup := (List.nodup_cons.mp hl).2
    rw [List.map_cons, List.indexOf_cons_self, List.length_cons,
      List.range_succ_eq_map]
    congr 1
    have : ∀ s ∈ rest, (a :: rest).indexOf s = Nat.succ (rest.indexOf s) := by
      intro s hs
      exact List.indexOf_cons_ne rest (fun h => hna (h ▸ hs))
    rw [List.map_congr_left this, ← map_indexOf_self rest hrest,
      List.map_map]
    rfl

theorem renumberFrom_map_order :
    ∀ (l : DB) (n : Nat),
      (renumberFrom n l).map Photo.order =
        (List.range' n l.length).map Int.ofNat
  | [], _ => rfl
  | p :: rest, n => by
    rw [List.length_cons, List.range'_succ]
    show (n : Int) :: (renumberFrom (n + 1) rest).map Photo.order =
      Int.ofNat n :: (List.range' (n + 1) rest.length).map Int.ofNat
    rw [renumberFrom_map_order rest (n + 1)]
    rfl

theorem renumberFrom_length :
    ∀ (l : DB) (n : Nat), (renumberFrom n l).length = l.length
  | [], _ => rfl
  | _ :: rest, n => by
    show (renumberFrom (n + 1) rest).length + 1 = rest.length + 1
    rw [renumberFrom_length rest (n + 1)]

theorem renumberFrom_ids :
    ∀ (l : DB) (n : Nat), ids (renumberFrom n l) = ids l
  | [], _ => rfl
  | p :: rest, n => by
    show p.id :: ids (renumberFrom (n + 1) rest) = p.id :: ids rest
    rw [renumberFrom_ids rest (n + 1)]

theorem renumberFrom_get :
    ∀ (l : DB) (n k : Nat) (hk : k < l.length)
      (hk' : k < (renumberFrom n l).length),
      (renumberFrom n l).get ⟨k, hk'⟩ =
        { l.get ⟨k, hk⟩ with order := ((n + k : Nat) : Int) }
  | p :: rest, n, 0, _, _ => by
    show { p with order := (n : Int) } = { p with order := ((n + 0 : Nat) : Int) }
    rw [Nat.add_zero]
  | p :: rest, n, k + 1, hk, hk' => by
    have hk2 : k < rest.length := Nat.lt_of_succ_lt_succ hk
    have hk2' : k < (renumberFrom (n + 1) rest).length := by
      rw [renumberFrom_length]
      exact hk2
    show (renumberFrom (n + 1) rest).get ⟨k, hk2'⟩ =
      { rest.get ⟨k, hk2⟩ with order := ((n + (k + 1) : Nat) : Int) }
    rw [renumberFrom_get rest (n + 1) k hk2 hk2']
    have harith : (n + 1) + k = n + (k + 1) := by omega
    rw [harith]

theorem publishAllFrom_length :
    ∀ (l : DB) (n : Nat), (publishAllFrom n l).length = l.length
  | [], _ => rfl
  | _ :: rest, n => by
    show (publishAllFrom (n + 1) rest).length + 1 = rest.length + 1
    rw [publishAllFrom_length rest (n + 1)]

theorem publishAllFrom_get :
    ∀ (l : DB) (n k : Nat) (hk : k < l.length)
      (hk' : k < (publishAllFrom n l).length),
      (publishAllFrom n l).get ⟨k, hk'⟩ =
        setPublished (n + k) (l.get ⟨k, hk⟩)
  | p :: rest, n, 0, _, _ => by
    show setPublished n p = setPublished (n + 0) p
    rw [Nat.add_zero]
  | p :: rest, n, k + 1, hk, hk' => by
    have hk2 : k < rest.length := Nat.lt_of_succ_lt_succ hk
    have hk2' : k < (publishAllFrom (n + 1) rest).length := by
      rw [publishAllFrom_length]
      exact hk2
    show (publishAllFrom (n + 1) rest).get ⟨k, hk2'⟩ =
      setPublished (n + (k + 1)) (rest.get ⟨k, hk2⟩)
    rw [publishAllFrom_get rest (n + 1) k hk2 hk2']
    have harith : (n + 1) + k = n + (k + 1) := by omega
    rw [harith]

theorem publishAllFrom_map_order :
    ∀ (l : DB) (n : Nat),
      (publishAllFrom n l).map Photo.order =
        (List.range' n l.length).map Int.ofNat
  | [], _ => rfl
  | p :: rest, n => by
    rw [List.length_cons, List.range'_succ]
    show (n : Int) :: (publishAllFrom (n + 1) rest).map Photo.order =
      Int.ofNat n :: (List.range' (n + 1) rest.length).map Int.ofNat
    rw [publishAllFrom_map_order rest (n + 1)]
    rfl

theorem publishAllFrom_published :
    ∀ (l : DB) (n : Nat) (p : Photo), p ∈ publishAllFrom n l →
      p.published = true
  | q :: rest, n, p, hp => by
    rcases List.mem_cons.mp hp with h | h
    · rw [h]; rfl
    · exact publishAllFrom_published rest (n + 1) p h

theorem ids_filter_ne (i : String) :
    ∀ db : DB,
      ids (db.filter (fun p => p.id ≠ i)) = (ids db).filter (fun s => s ≠ i)
  | [] => rfl
  | p :: rest => by
    have ih := ids_filter_ne i rest
    by_cases hpi : p.id = i
    · simpa [ids, List.filter_cons, hpi] using ih
    · simpa [ids, List.filter_cons, hpi] using ih

/-- A freshly renumbered collection has dense orders. -/
theorem renumber_dense (l : DB) : OrdersDense (renumberFrom 0 l) := by
  unfold OrdersDense
  rw [renumberFrom_map_order, renumberFrom_length, ← List.range_eq_range']

/-- Claim C5: `delete(id)` fails with NotFound exactly when no record with
that id is in the collection (hence deleting twice yields NotFound the
second time); when present, the record is removed, the survivors keep their
data but are renumbered to a dense 0-based sequence, and the result does not
depend on whether the external binary deletion succeeded. -/
theorem C5_delete :
    ∀ (db : DB) (i : String) (destroyOk : Bool),
      (deleteOp db i destroyOk = .error () ↔ i ∉ ids db) ∧
      (deleteOp db i destroyOk = deleteOp db i (!destroyOk)) ∧
      (∀ db', deleteOp db i destroyOk = .ok db' →
        ids db' = (ids db).filter (fun s => s ≠ i) ∧
        OrdersDense db' ∧
        (∀ k (hk : k < (db.filter (fun p => p.id ≠ i)).length)
            (hk' : k < db'.length),
          db'.get ⟨k, hk'⟩ =
            { (db.filter (fun p => p.id ≠ i)).get ⟨k, hk⟩ with
                order := (k : Int) }) ∧
        deleteOp db' i destroyOk = .error ()) := by
  intro db i destroyOk
  refine ⟨?_, rfl, ?_⟩
  · unfold deleteOp
    by_cases hm : i ∈ ids db
    · rw [if_pos hm]
      simp [hm]
    · rw [if_neg hm]
      simp [hm]
  · intro db' h
    unfold deleteOp at h
    by_cases hm : i ∈ ids db
    · rw [if_pos hm] at h
      have hdb' := Except.ok.inj h
      subst hdb'
      refine ⟨?_, renumber_dense _, ?_, ?_⟩
      · rw [renumberFrom_ids, ids_filter_ne]
      · intro k hk hk'
        rw [renumberFrom_get _ 0 k hk hk', Nat.zero_add]
      · unfold deleteOp
        rw [if_neg]
        rw [renumberFrom_ids, ids_filter_ne]
        intro hmem
        have := (List.mem_filter.mp hmem).2
        simp at this
    · rw [if_neg hm] at h
      exact absurd h (by simp)

/-- Fixture record for concrete inputs. -/
def mkPhoto (i : String) (ord : Int) (pub : Bool) : Photo :=
  { id := i, cloudinaryId := "c/" ++ i, name := i, w := 1, h := 1, ratio := 1,
    orient := Orient.sq, order := ord, published := pub, createdAt := "t" }

def dbDelW : DB := [mkPhoto "a" 0 false, mkPhoto "b" 1 false]

def dbDelW' : DB := renumberFrom 0 (dbDelW.filter (fun p => p.id ≠ "a"))

/-- Witness for C5 on a two-record collection: after deleting `"a"`, the
orders are dense again and a second delete of `"a"` reports NotFound. -/
theorem C5_delete_witness :
    OrdersDense dbDelW' ∧ deleteOp dbDelW' "a" true = .error () :=
  ⟨((C5_delete dbDelW "a" true).2.2 dbDelW' rfl).2.1,
   ((C5_delete dbDelW "a" true).2.2 dbDelW' rfl).2.2.2⟩

/-- Claim C7: the partial-update operation fails with NotFound exactly when
the id is absent; otherwise only the (unique) record with that id changes,
and only through `applyPatch`, which overrides exactly the fields present in
the patch and leaves every other field — and every other record — untouched.
In particular no other record's order is renumbered. -/
theorem C7_update :
    ∀ (db : DB) (i : String) (q : Patch),
      (updateOp db i q = .error () ↔ i ∉ ids db) ∧
      ((ids db).Nodup → ∀ db', updateOp db i q = .ok db' →
        db'.length = db.length ∧
        ∀ k (hk : k < db.length) (hk' : k < db'.length),
          db'.get ⟨k, hk'⟩ =
            if (db.get ⟨k, hk⟩).id = i then applyPatch q (db.get ⟨k, hk⟩)
            else db.get ⟨k, hk⟩) ∧
      (∀ p : Photo,
        (applyPatch q p).id = p.id ∧
        (applyPatch q p).cloudinaryId = p.cloudinaryId ∧
        (applyPatch q p).w = p.w ∧
        (applyPatch q p).h = p.h ∧
        (applyPatch q p).ratio = p.ratio ∧
        (applyPatch q p).orient = p.orient ∧
        (applyPatch q p).published = p.published ∧
        (applyPatch q p).createdAt = p.createdAt ∧
        (q.name = none → (applyPatch q p).name = p.name) ∧
        (q.order = none → (applyPatch q p).order = p.order) ∧
        (∀ s, q.name = some s → (applyPatch q p).name = s) ∧
        (∀ o, q.order = some o → (applyPatch q p).order = o)) := by
  intro db i q
  refine ⟨?_, ?_, ?_⟩
  · unfold updateOp
    by_cases hm : i ∈ ids db
    · rw [if_pos hm]
      simp [hm]
    · rw [if_neg hm]
      simp [hm]
  · intro hnd db' h
    unfold updateOp at h
    by_cases hm : i ∈ ids db
    · rw [if_pos hm] at h
      have hdb' : db' = updateFirst db i (applyPatch q) := (Except.ok.inj h).symm
      subst hdb'
      rw [updateFirst_eq_map hnd]
      refine ⟨List.length_map _ _, ?_⟩
      intro k hk hk'
      rw [List.get_map]
    · rw [if_neg hm] at h
      exact absurd h (by simp)
  · intro p
    refine ⟨rfl, rfl, rfl, rfl, rfl, rfl, rfl, rfl, ?_, ?_, ?_, ?_⟩
    · intro hn
      show q.name.getD p.name = p.name
      rw [hn]
      rfl
    · intro ho
      show q.order.getD p.order = p.order
      rw [ho]
      rfl
    · intro s hs
      show q.name.getD p.name = s
      rw [hs]
      rfl
    · intro o ho
      show q.order.getD p.order = o
      rw [ho]
      rfl

def dbUpdW : DB := [mkPhoto "a" 0 false, mkPhoto "b" 1 false]

/-- Witness for C7: renaming record `"a"` in a two-record collection leaves
record `"b"` (position 1) exactly as it was. -/
theorem C7_update_witness :
    (updateFirst dbUpdW "a"
        (applyPatch { name := some "x" })).get ⟨1, by decide⟩ =
      dbUpdW.get ⟨1, by decide⟩ := by
  have h := ((C7_update dbUpdW "a" { name := some "x" }).2.1 (by decide)
    (updateFirst dbUpdW "a" (applyPatch { name := some "x" })) rfl).2
    1 (by decide) (by decide)
  rw [h]
  rfl

/-- With unique record ids and a duplicate-free id list, the publish loop is
a pointwise map: listed records become published with their list index as
order, all others become unpublished. -/
theorem publishOp_some_eq_map (db : DB) (l : List String)
    (hdb : (ids db).Nodup) (hl : l.Nodup) :
    publishOp db (some l) = db.map (fun p =>
      if p.id ∈ l then
        { p with published := true, order := (l.indexOf p.id : Int) }
      else { p with published := false }) := by
  show applyByIds setPublished 0 l
      (db.map fun p => { p with published := false }) = _
  have hids : ids (db.map fun p => { p with published := false }) = ids db := by
    apply ids_map_of_preserve
    intro p
    rfl
  rw [applyByIds_eq_map setPublished (fun _ _ => rfl) l 0 _ (hids ▸ hdb) hl,
    List.map_map]
  apply List.map_congr_left
  intro p _
  by_cases hpl : p.id ∈ l
  · show (if p.id ∈ l then _ else _) = _
    rw [if_pos hpl, if_pos hpl]
    show setPublished (0 + l.indexOf p.id) { p with published := false } = _
    rw [Nat.zero_add]
    rfl
  · show (if p.id ∈ l then _ else _) = _
    rw [if_neg hpl, if_neg hpl]

/-- Claim C3: with an ordered id list, `bulkPublish` marks exactly the
listed records published with `order` = their position in the list, all
other records unpublished (a listed id absent from the collection is
silently skipped and adds no record); with no list, every record is
published and the collection keeps its sequence, each record's `order`
becoming its position. -/
theorem C3_bulkPublish :
    (∀ (db : DB) (l : List String), (ids db).Nodup → l.Nodup →
      publishOp db (some l) = db.map (fun p =>
        if p.id ∈ l then
          { p with published := true, order := (l.indexOf p.id : Int) }
        else { p with published := false })) ∧
    (∀ db : DB,
      (publishOp db none).length = db.length ∧
      ∀ k (hk : k < db.length) (hk' : k < (publishOp db none).length),
        (publishOp db none).get ⟨k, hk'⟩ =
          { db.get ⟨k, hk⟩ with published := true, order := (k : Int) }) := by
  refine ⟨publishOp_some_eq_map, ?_⟩
  intro db
  show (publishAllFrom 0 (db.map fun p => { p with published := false })).length
      = db.length ∧ _
  constructor
  · rw [publishAllFrom_length, List.length_map]
  · intro k hk hk'
    have hkm : k < (db.map fun p => { p with published := false }).length := by
      rw [List.length_map]
      exact hk
    have hk'2 : k <
        (publishAllFrom 0 (db.map fun p => { p with published := false })).length :=
      hk'
    show (publishAllFrom 0 (db.map fun p => { p with published := false })).get
        ⟨k, hk'2⟩ =
      { db.get ⟨k, hk⟩ with published := true, order := (k : Int) }
    rw [publishAllFrom_get _ 0 k hkm hk'2, List.get_map]
    show setPublished (0 + k) { db.get ⟨k, hk⟩ with published := false } = _
    rw [Nat.zero_add]
    rfl

def dbPubW : DB :=
  [mkPhoto "a" 0 false, mkPhoto "b" 1 false, mkPhoto "c" 2 false]

/-- Witness for C3, the spec's own example: `bulkPublish(["a","c"])` on a
collection `a, b, c` publishes `a` with order 0 and `c` with order 1 and
unpublishes `b`. -/
theorem C3_bulkPublish_witness :
    publishOp dbPubW (some ["a", "c"]) =
      [{ mkPhoto "a" 0 false with published := true, order := 0 },
       { mkPhoto "b" 1 false with published := false },
       { mkPhoto "c" 2 false with published := true, order := 1 }] := by
  rw [C3_bulkPublish.1 dbPubW ["a", "c"] (by decide) (by decide)]
  rfl

/-- Claim C10: publishing with an explicit empty list takes the list branch:
every record ends up unpublished and the reported count of published
records is 0, whereas omitting the list publishes every record. -/
theorem C10_publishEmptyList :
    ∀ db : DB,
      publishOp db (some []) =
        db.map (fun p => { p with published := false }) ∧
      ((publishOp db (some [])).filter (fun p => p.published)).length = 0 ∧
      (∀ p ∈ publishOp db none, p.published = true) ∧
      ((publishOp db none).filter (fun p => p.published)).length = db.length := by
  intro db
  refine ⟨rfl, ?_, ?_, ?_⟩
  · show ((db.map fun p => { p with published := false }).filter
      (fun p => p.published)).length = 0
    rw [List.filter_map]
    have : (db.filter ((fun (p : Photo) => p.published) ∘
        (fun p => { p with published := false }))) = [] := by
      apply List.filter_eq_nil.mpr
      intro p _
      simp [Function.comp]
    rw [this]
    rfl
  · intro p hp
    have hp' : p ∈ publishAllFrom 0
        (db.map fun q => { q with published := false }) := hp
    exact publishAllFrom_published _ 0 p hp'
  · have heq : (publishOp db none).filter (fun p => p.published) =
        publishOp db none := by
      apply List.filter_eq_self.mpr
      intro p hp
      have hp' : p ∈ publishAllFrom 0
          (db.map fun q => { q with published := false }) := hp
      rw [publishAllFrom_published _ 0 p hp']
    rw [heq]
    show (publishAllFrom 0 (db.map fun p => { p with published := false })).length
      = db.length
    rw [publishAllFrom_length, List.length_map]

/-- Witness for C10: on a two-record collection, publishing with `[]`
reports 0 published records. -/
theorem C10_publishEmptyList_witness :
    ((publishOp dbDelW (some [])).filter (fun p => p.published)).length = 0 :=
  (C10_publishEmptyList dbDelW).2.1

theorem orderLe_trans (a b c : Photo) :
    (decide (a.order ≤ b.order) : Bool) → (decide (b.order ≤ c.order) : Bool) →
    (decide (a.order ≤ c.order) : Bool) := by
  intro h1 h2
  simp only [decide_eq_true_eq] at h1 h2 ⊢
  omega

theorem orderLe_total (a b : Photo) :
    ((decide (a.order ≤ b.order) : Bool) || (decide (b.order ≤ a.order) : Bool)) := by
  simp only [Bool.or_eq_true, decide_eq_true_eq]
  omega

/-- Claim C4: `reorderAll` fails with InvalidInput exactly when no list is
given; with a list it always succeeds, each listed record ending with
`order` = its list position, unlisted records keeping their prior order, the
result being a stably sorted-by-`order` permutation of that intermediate
collection; on the spec's example, `reorderAll(["b","a"])` on `a, b, c`
yields the sequence `b, a, c`. -/
theorem C4_reorderAll :
    (∀ db : DB, reorderOp db none = .error ()) ∧
    (∀ (db : DB) (l : List String),
      reorderOp db (some l) = .ok (sortByOrder (applyByIds setOrder 0 l db))) ∧
    (∀ (db : DB) (l : List String) (db' : DB), (ids db).Nodup → l.Nodup →
      reorderOp db (some l) = .ok db' →
      db'.Perm (db.map (fun p =>
        if p.id ∈ l then { p with order := (l.indexOf p.id : Int) } else p)) ∧
      db'.Pairwise (fun a b => a.order ≤ b.order)) ∧
    (∀ (db : DB) (l : List String) (db' : DB) (a b : Photo),
      reorderOp db (some l) = .ok db' →
      a.order ≤ b.order → [a, b].Sublist (applyByIds setOrder 0 l db) →
      [a, b].Sublist db') ∧
    reorderOp dbPubW (some ["b", "a"]) =
      .ok [{ mkPhoto "b" 1 false with order := 0 },
           { mkPhoto "a" 0 false with order := 1 },
           mkPhoto "c" 2 false] := by
  refine ⟨fun _ => rfl, fun _ _ => rfl, ?_, ?_, ?_⟩
  · intro db l db' hdb hl h
    have hdb' : sortByOrder (applyByIds setOrder 0 l db) = db' :=
      Except.ok.inj h
    subst hdb'
    constructor
    · have hperm : (applyByIds setOrder 0 l db).mergeSort
          (fun a b => a.order ≤ b.order) |>.Perm (applyByIds setOrder 0 l db) :=
        List.mergeSort_perm _ _
      apply hperm.trans
      rw [applyByIds_eq_map setOrder (fun _ _ => rfl) l 0 db hdb hl]
      apply List.Perm.of_eq
      apply List.map_congr_left
      intro p _
      by_cases hpl : p.id ∈ l
      · rw [if_pos hpl, if_pos hpl]
        show setOrder (0 + l.indexOf p.id) p = _
        rw [Nat.zero_add]
        rfl
      · rw [if_neg hpl, if_neg hpl]
    · have hs := List.sorted_mergeSort orderLe_trans orderLe_total
        (applyByIds setOrder 0 l db)
      exact hs.imp (fun hab => by simpa using hab)
  · intro db l db' a b h hab hsub
    have hdb' : sortByOrder (applyByIds setOrder 0 l db) = db' :=
      Except.ok.inj h
    subst hdb'
    exact List.pair_sublist_mergeSort orderLe_trans orderLe_total
      (by simpa using hab) hsub
  · show Except.ok (sortByOrder (applyByIds setOrder 0 ["b", "a"] dbPubW)) = _
    have h1 : applyByIds setOrder 0 ["b", "a"] dbPubW =
        [{ mkPhoto "a" 0 false with order := 1 },
         { mkPhoto "b" 1 false with order := 0 },
         mkPhoto "c" 2 false] := by
      simp [applyByIds, updateFirst, dbPubW, mkPhoto, setOrder]
    rw [h1]
    have h2 : sortByOrder
        [{ mkPhoto "a" 0 false with order := 1 },
         { mkPhoto "b" 1 false with order := 0 },
         mkPhoto "c" 2 false] =
        [{ mkPhoto "b" 1 false with order := 0 },
         { mkPhoto "a" 0 false with order := 1 },
         mkPhoto "c" 2 false] := by
      simp [sortByOrder, List.mergeSort, List.splitInTwo, List.splitAt,
        List.splitAt.go, List.merge, mkPhoto]
    rw [h2]

/-- Witness for C4: on the spec's example collection the reorder succeeds
and the result is sorted by `order`. -/
theorem C4_reorderAll_witness :
    (sortByOrder (applyByIds setOrder 0 ["b", "a"] dbPubW)).Pairwise
      (fun a b => a.order ≤ b.order) :=
  ((C4_reorderAll.2.2.1 dbPubW ["b", "a"]
    (sortByOrder (applyByIds setOrder 0 ["b", "a"] dbPubW))
    (by decide) (by decide) rfl).2)

/-- Publishing without a list renumbers the whole collection densely. -/
theorem publishAll_dense (db : DB) : OrdersDense (publishOp db none) := by
  unfold OrdersDense
  have h1 : (publishOp db none).map Photo.order =
      (List.range' 0 (db.map fun p => { p with published := false }).length).map
        Int.ofNat := publishAllFrom_map_order _ 0
  have h2 : (publishOp db none).length =
      (db.map fun p => { p with published := false }).length :=
    publishAllFrom_length _ 0
  rw [h1, h2, ← List.range_eq_range']

/-- Registration appends `order = n` to an `n`-record collection, so it
preserves density of the full collection. -/
theorem register_dense (db : DB) (newId cld : String) (onm : Option String)
    (w h : Option Nat) (lookup : Option (Nat × Nat)) (now : String)
    (hd : OrdersDense db) :
    OrdersDense (registerPhoto db newId cld onm w h lookup now).1 := by
  unfold OrdersDense at hd ⊢
  have hsplit : (registerPhoto db newId cld onm w h lookup now).1 =
      db ++ [(registerPhoto db newId cld onm w h lookup now).2] := rfl
  rw [hsplit, List.map_append, List.length_append]
  show (db.map Photo.order ++ [(db.length : Int)]).Perm
    ((List.range (db.length + 1)).map Int.ofNat)
  rw [List.range_succ, List.map_append]
  exact List.Perm.append hd (List.Perm.refl _)

/-- Publishing a duplicate-free list of ids that all occur in a
duplicate-free collection gives the published subset dense orders
`0, …, k-1`. -/
theorem publish_some_publishedDense (db : DB) (l : List String)
    (hdb : (ids db).Nodup) (hl : l.Nodup) (hsub : ∀ s ∈ l, s ∈ ids db) :
    PublishedDense (publishOp db (some l)) := by
  unfold PublishedDense
  rw [publishOp_some_eq_map db l hdb hl, List.filter_map]
  have hfc : (db.filter ((fun q : Photo => q.published) ∘ (fun p =>
      if p.id ∈ l then
        { p with published := true, order := (l.indexOf p.id : Int) }
      else { p with published := false }))) =
      db.filter (fun p => decide (p.id ∈ l)) := by
    apply List.filter_congr
    intro p _
    by_cases hpl : p.id ∈ l
    · simp only [Function.comp_apply, if_pos hpl]
      simp [hpl]
    · simp only [Function.comp_apply, if_neg hpl]
      simp [hpl]
  rw [hfc, List.map_map, List.length_map]
  have hmc : (db.filter (fun p => decide (p.id ∈ l))).map
      (Photo.order ∘ (fun p =>
        if p.id ∈ l then
          { p with published := true, order := (l.indexOf p.id : Int) }
        else { p with published := false })) =
      ((db.filter (fun p => decide (p.id ∈ l))).map Photo.id).map
        (fun s => Int.ofNat (l.indexOf s)) := by
    rw [List.map_map]
    apply List.map_congr_left
    intro p hp
    have hpl : p.id ∈ l := by
      have := (List.mem_filter.mp hp).2
      simpa using this
    simp only [Function.comp_apply, if_pos hpl]
    rfl
  rw [hmc]
  have hA : ((db.filter (fun p => decide (p.id ∈ l))).map Photo.id).Perm l := by
    apply (List.perm_ext_iff_of_nodup ?_ hl).mpr
    · intro s
      constructor
      · intro hs
        rcases List.mem_map.mp hs with ⟨p, hp, hps⟩
        have := (List.mem_filter.mp hp).2
        rw [← hps]
        simpa using this
      · intro hs
        rcases List.mem_map.mp (hsub s hs) with ⟨p, hp, hps⟩
        apply List.mem_map.mpr
        refine ⟨p, ?_, hps⟩
        apply List.mem_filter.mpr
        refine ⟨hp, ?_⟩
        rw [hps]
        simpa using hs
    · exact List.Sublist.nodup ((List.filter_sublist db).map Photo.id) hdb
  have hlen : (db.filter (fun p => decide (p.id ∈ l))).length = l.length := by
    have := hA.length_eq
    rwa [List.length_map] at this
  rw [hlen]
  have := hA.map (fun s => Int.ofNat (l.indexOf s))
  apply this.trans
  apply List.Perm.of_eq
  have : l.map (fun s => Int.ofNat (l.indexOf s)) =
      (l.map (fun s => l.indexOf s)).map Int.ofNat := by
    rw [List.map_map]
    rfl
  rw [this, map_indexOf_self l hl]

/-! ## Claim C1: order density

The source does not maintain density in general: `bulkPublish` with a
partial id list leaves stale order values on the unlisted (unpublished)
records, and a skipped absent id leaves a hole in the published orders.
A subsequent `register` then produces a full collection whose orders are
not a dense permutation. -/

def cexDb1 : DB :=
  (registerPhoto [] "a" "c/a" none (some 1) (some 1) none "t").1

def cexDb2 : DB :=
  (registerPhoto cexDb1 "b" "c/b" none (some 1) (some 1) none "t").1

def cexDb3 : DB := publishOp cexDb2 (some ["b"])

/-- Counterexample to C1: the collection reached by
`register a; register b; bulkPublish(["b"])` is reachable, yet one more
`register` yields order values `0, 0, 2` — not a dense `0..2` permutation,
contradicting both "after any membership mutation the full collection's
orders are dense" and "all register sequences from reachable collections
give dense orders". -/
theorem C1_counterexample :
    Reachable cexDb3 ∧
    ¬ OrdersDense
      (registerPhoto cexDb3 "c" "c/c" none (some 1) (some 1) none "t").1 := by
  constructor
  · exact Reachable.publish cexDb2 (some ["b"])
      (Reachable.register cexDb1 "b" "c/b" none (some 1) (some 1) none "t"
        (Reachable.register [] "a" "c/a" none (some 1) (some 1) none "t"
          Reachable.init (by decide))
        (by decide))
  · decide

/-- Claim C1 (amended): density holds for each mutation under the
conditions the code actually guarantees — `delete` always renumbers the
full collection densely; `bulkPublish` with no list renumbers the full
collection densely; `bulkPublish` with a duplicate-free id list whose ids
all occur in the (duplicate-free) collection gives the published subset
dense orders; and `register` preserves full-collection density. -/
theorem C1_orderDensity :
    (∀ (db : DB) (i : String) (destroyOk : Bool) (db' : DB),
      deleteOp db i destroyOk = .ok db' → OrdersDense db') ∧
    (∀ db : DB, OrdersDense (publishOp db none)) ∧
    (∀ (db : DB) (l : List String), (ids db).Nodup → l.Nodup →
      (∀ s ∈ l, s ∈ ids db) → PublishedDense (publishOp db (some l))) ∧
    (∀ (db : DB) (newId cld : String) (onm : Option String)
        (w h : Option Nat) (lookup : Option (Nat × Nat)) (now : String),
      OrdersDense db →
      OrdersDense (registerPhoto db newId cld onm w h lookup now).1) := by
  refine ⟨?_, publishAll_dense, publish_some_publishedDense, register_dense⟩
  intro db i destroyOk db' h
  unfold deleteOp at h
  by_cases hm : i ∈ ids db
  · rw [if_pos hm] at h
    have hdb' := Except.ok.inj h
    subst hdb'
    exact renumber_dense _
  · rw [if_neg hm] at h
    exact absurd h (by simp)

/-- Witness for C1 (amended) at concrete inputs: registering on the dense
three-record fixture keeps the full orders dense, and publishing all of
`["a","c"]` on it makes the published orders dense. -/
theorem C1_orderDensity_witness :
    OrdersDense
      (registerPhoto dbPubW "d" "c/d" none (some 1) (some 1) none "t").1 ∧
    PublishedDense (publishOp dbPubW (some ["a", "c"])) :=
  ⟨C1_orderDensity.2.2.2 dbPubW "d" "c/d" none (some 1) (some 1) none "t"
      (by decide),
   C1_orderDensity.2.2.1 dbPubW ["a", "c"] (by decide) (by decide)
      (by decide)⟩

/-! ## Persistence lemmas -/

theorem readDB_local (c : SnapshotCodec β) (s : Store β) (wk : Bool)
    (db : DB) (h : s.localFile.bind c.parse = some db) :
    readDB c s wk = (db, s) := by
  unfold readDB
  rw [h]

theorem readDB_remote (c : SnapshotCodec β) (s : Store β) (wk : Bool)
    (d : DB) (h1 : s.localFile.bind c.parse = none)
    (h2 : s.remote.bind c.parse = some d) :
    readDB c s wk =
      (d, if wk then { s with localFile := some (c.stringify d) } else s) := by
  unfold readDB
  rw [h1, h2]

theorem readDB_neither (c : SnapshotCodec β) (s : Store β) (wk : Bool)
    (h1 : s.localFile.bind c.parse = none)
    (h2 : s.remote.bind c.parse = none) :
    readDB c s wk = ([], s) := by
  unfold readDB
  rw [h1, h2]

/-- Claim C2: `load` never fails — for every cache/backing-store state it
returns a collection: the locally cached snapshot when present and
parseable; otherwise the backing store's snapshot, which is also written
into the local cache (when that cache write itself succeeds; the returned
snapshot is the same either way); and the empty collection when both
sources fail. -/
theorem C2_load :
    ∀ (β : Type) (c : SnapshotCodec β) (s : Store β) (wk : Bool),
      (∀ b db, s.localFile = some b → c.parse b = some db →
        readDB c s wk = (db, s)) ∧
      (s.localFile.bind c.parse = none →
        ∀ b d, s.remote = some b → c.parse b = some d →
          readDB c s true =
            (d, { s with localFile := some (c.stringify d) }) ∧
          (readDB c s false).1 = d) ∧
      (s.localFile.bind c.parse = none → s.remote.bind c.parse = none →
        readDB c s wk = ([], s)) := by
  intro β c s wk
  refine ⟨?_, ?_, ?_⟩
  · intro b db hb hp
    apply readDB_local
    rw [hb]
    show c.parse b = some db
    exact hp
  · intro hl b d hb hp
    have hr : s.remote.bind c.parse = some d := by
      rw [hb]
      show c.parse b = some d
      exact hp
    constructor
    · rw [readDB_remote c s true d hl hr]
      rfl
    · rw [readDB_remote c s false d hl hr]
  · intro h1 h2
    exact readDB_neither c s wk h1 h2

/-- The identity codec over `β := DB`: a trivially lossless serializer,
used to run the persistence layer on concrete inputs. -/
def idCodec : SnapshotCodec DB where
  stringify := fun db => db
  parse := fun db => some db
  roundTrip := fun _ => rfl

def storeW : Store DB :=
  { localFile := none, remote := some [mkPhoto "a" 0 false] }

/-- Witness for C2: with an empty local cache and a remote snapshot, load
returns the remote snapshot and re-populates the local cache. -/
theorem C2_load_witness :
    readDB idCodec storeW true =
      ([mkPhoto "a" 0 false],
       { localFile := some [mkPhoto "a" 0 false],
         remote := some [mkPhoto "a" 0 false] }) :=
  ((C2_load DB idCodec storeW true).2.1 rfl [mkPhoto "a" 0 false]
    [mkPhoto "a" 0 false] rfl rfl).1

/-- Loading right after a successful save returns the saved collection and
leaves the store unchanged. -/
theorem readDB_after_writeDB (c : SnapshotCodec β) (data : DB) (s : Store β)
    (wk : Bool) :
    readDB c (writeDB c data s true true).1 wk =
      (data, (writeDB c data s true true).1) := by
  apply readDB_local
  show c.parse (c.stringify data) = some data
  exact c.roundTrip data

/-- Claim C8: starting from any persisted collection (a successful save of
`data`), loading returns `data` unchanged, and saving the loaded snapshot —
once and then again — writes exactly the bytes of the original save both
times. -/
theorem C8_saveLoadSave :
    ∀ (β : Type) (c : SnapshotCodec β) (s : Store β) (data : DB)
      (wk wk2 : Bool),
      readDB c (writeDB c data s true true).1 wk =
        (data, (writeDB c data s true true).1) ∧
      (writeDB c (readDB c (writeDB c data s true true).1 wk).1
          (readDB c (writeDB c data s true true).1 wk).2 true true).2 =
        (writeDB c data s true true).2 ∧
      (writeDB c
          (readDB c
            (writeDB c (readDB c (writeDB c data s true true).1 wk).1
              (readDB c (writeDB c data s true true).1 wk).2 true true).1
            wk2).1
          (readDB c
            (writeDB c (readDB c (writeDB c data s true true).1 wk).1
              (readDB c (writeDB c data s true true).1 wk).2 true true).1
            wk2).2 true true).2 =
        (writeDB c data s true true).2 := by
  intro β c s data wk wk2
  refine ⟨readDB_after_writeDB c data s wk, ?_, ?_⟩
  · rw [readDB_after_writeDB]
    rfl
  · rw [readDB_after_writeDB, readDB_after_writeDB]
    rfl

/-- Claim C9: `register` appends exactly one record carrying the fresh id
(so unique ids are preserved), `order` = prior collection length,
`published = false`, ratio/orientation derived by the classifier from the
final dimensions, the documented name default; and when no dimensions are
supplied and the external lookup fails the record is still created, with
zero dimensions. -/
theorem C9_register :
    ∀ (db : DB) (newId cld : String) (onm : Option String)
      (w h : Option Nat) (lookup : Option (Nat × Nat)) (now : String)
      (db' : DB) (p : Photo),
      registerPhoto db newId cld onm w h lookup now = (db', p) →
      db' = db ++ [p] ∧
      p.id = newId ∧
      (newId ∉ ids db → (ids db).Nodup → (ids db').Nodup) ∧
      p.order = (db.length : Int) ∧
      p.published = false ∧
      p.createdAt = now ∧
      p.cloudinaryId = cld ∧
      (p.ratio, p.orient) = classify p.w p.h ∧
      p.name = photoName cld onm ∧
      (onm = none → p.name = lastSeg cld) ∧
      (∀ nm, onm = some nm → nm.isEmpty = false → p.name = stemOf nm) ∧
      (w = none → h = none → lookup = none → p.w = 0 ∧ p.h = 0) := by
  intro db newId cld onm w h lookup now db' p hreg
  have h2 : (registerPhoto db newId cld onm w h lookup now).2 = p :=
    congrArg Prod.snd hreg
  have h1 : (registerPhoto db newId cld onm w h lookup now).1 = db' :=
    congrArg Prod.fst hreg
  subst h2
  subst h1
  refine ⟨rfl, rfl, ?_, rfl, rfl, rfl, rfl, rfl, rfl, ?_, ?_, ?_⟩
  · intro hfresh hnd
    show (ids (db ++ [_])).Nodup
    unfold ids
    rw [List.map_append]
    apply List.Nodup.append hnd (List.nodup_singleton _)
    intro x hx hx'
    rw [List.mem_singleton.mp hx'] at hx
    exact hfresh hx
  · intro hn
    subst hn
    rfl
  · intro nm hnm hne
    subst hnm
    show (if nm.isEmpty = true then lastSeg cld else stemOf nm) = stemOf nm
    rw [hne]
    rfl
  · intro hw hh hlk
    subst hw
    subst hh
    subst hlk
    exact ⟨rfl, rfl⟩

/-- Witness for C9: registering with no supplied dimensions and a failed
lookup still creates the record, with zero dimensions, and keeps ids
unique. -/
theorem C9_register_witness :
    ((registerPhoto [] "u1" "folder/img7" none none none none "t").2.w = 0 ∧
     (registerPhoto [] "u1" "folder/img7" none none none none "t").2.h = 0) ∧
    (ids (registerPhoto [] "u1" "folder/img7" none none none none "t").1).Nodup :=
  ⟨(C9_register [] "u1" "folder/img7" none none none none "t" _ _
      rfl).2.2.2.2.2.2.2.2.2.2.2 rfl rfl rfl,
   (C9_register [] "u1" "folder/img7" none none none none "t" _ _
      rfl).2.2.1 (by decide) (by decide)⟩

/-- `orientOf` hits each tag exactly on the spec's threshold intervals. -/
theorem orientOf_spec (r : ℚ) :
    (orientOf r = .land ↔ 1.15 < r) ∧
    (orientOf r = .port ↔ r < 0.87) ∧
    (orientOf r = .sq ↔ 0.87 ≤ r ∧ r ≤ 1.15) := by
  unfold orientOf
  split_ifs with h1 h2
  · refine ⟨by simp [h1], ?_, ?_⟩
    · simp only [reduceCtorEq, false_iff]
      intro hc; norm_num at h1 hc; linarith
    · simp only [reduceCtorEq, false_iff]
      intro hc; norm_num at h1 hc; linarith
  · refine ⟨?_, by simp [h2], ?_⟩
    · simp only [reduceCtorEq, false_iff]
      intro hc; norm_num at h2 hc; linarith
    · simp only [reduceCtorEq, false_iff]
      intro hc; norm_num at h2 hc; linarith
  · push_neg at h1 h2
    refine ⟨?_, ?_, by simp [h1, h2]⟩
    · simp only [reduceCtorEq, false_iff]
      intro hc; exact absurd hc (not_lt.mpr h1)
    · simp only [reduceCtorEq, false_iff]
      intro hc; exact absurd hc (not_lt.mpr h2)

/-- Claim C6: the geometry classifier computes `ratio = w/h` when both
dimensions are positive and `ratio = 1` otherwise, and classifies
`landscape` exactly when `ratio > 1.15`, `portrait` exactly when
`ratio < 0.87`, and `square` otherwise; in particular
`classify 1920 1080` is landscape, `classify 1080 1920` is portrait,
`classify 1000 1000` is square, and `classify 0 0` is square with ratio 1. -/
theorem C6_classify :
    (∀ w h : Nat,
      (0 < w ∧ 0 < h → (classify w h).1 = (w : ℚ) / (h : ℚ)) ∧
      (¬(0 < w ∧ 0 < h) → (classify w h).1 = 1) ∧
      ((classify w h).2 = Orient.land ↔ (classify w h).1 > 1.15) ∧
      ((classify w h).2 = Orient.port ↔ (classify w h).1 < 0.87) ∧
      ((classify w h).2 = Orient.sq ↔
        0.87 ≤ (classify w h).1 ∧ (classify w h).1 ≤ 1.15)) ∧
    (classify 1920 1080).2 = Orient.land ∧
    (classify 1080 1920).2 = Orient.port ∧
    (classify 1000 1000).2 = Orient.sq ∧
    classify 0 0 = (1, Orient.sq) := by
  refine ⟨fun w h => ?_, ?_, ?_, ?_, ?_⟩
  · have hs := orientOf_spec (ratioOf w h)
    refine ⟨?_, ?_, hs.1, hs.2.1, hs.2.2⟩
    · intro h12
      show ratioOf w h = (w : ℚ) / (h : ℚ)
      unfold ratioOf
      rw [if_pos h12]
    · intro h12
      show ratioOf w h = 1
      unfold ratioOf
      rw [if_neg h12]
  · show orientOf (ratioOf 1920 1080) = Orient.land
    norm_num [ratioOf, orientOf]
  · show orientOf (ratioOf 1080 1920) = Orient.port
    norm_num [ratioOf, orientOf]
  · show orientOf (ratioOf 1000 1000) = Orient.sq
    norm_num [ratioOf, orientOf]
  · show (ratioOf 0 0, orientOf (ratioOf 0 0)) = (1, Orient.sq)
    norm_num [ratioOf, orientOf]

/-- Witness for C6 at a concrete input: the classifier on `1920 × 1080`
computes ratio `16/9`. -/
theorem C6_classify_witness : (classify 1920 1080).1 = (1920 : ℚ) / 1080 :=
  ((C6_classify.1 1920 1080).1 (by decide))

end Portfolio
